import Mathlib

/-!
Shallow embedding of the quadtree terrain-LOD engine (QuadTree.h / QuadTree.cpp)
and the heightfield store (Terrain.h / Terrain.cpp) of the repository.

C++ `float` arithmetic is modelled by exact rationals (ℚ).  Square-root
comparisons `sqrt d2 < t` (the only use of sqrt in the source) are modelled by
the exact real-arithmetic equivalent `0 ≤ t ∧ d2 < t*t`.
-/

namespace TerrainLOD

/-- Exact model of `std::sqrt(d2) < t` for `d2 ≥ 0`: over the reals,
    `Real.sqrt d2 < t ↔ 0 ≤ t ∧ d2 < t*t`. -/
def ltSqrt (d2 t : ℚ) : Bool :=
  decide (0 ≤ t ∧ d2 < t * t)

/-- One frustum plane `(nx, ny, nz, d)`, convention "inside = positive distance"
    (DirectX::XMFLOAT4 in the source). -/
structure Plane where
  a : ℚ
  b : ℚ
  c : ℚ
  d : ℚ
deriving Repr, DecidableEq

/-- The per-node fields of `struct TerrainNode` (QuadTree.h).  The
    `Bounds` member (`BoundingBoxAABB` = center + extents) is inlined as six
    rational fields. -/
structure NodeFields where
  X : ℚ
  Z : ℚ
  Size : ℚ
  LODLevel : ℤ
  MaxLOD : ℤ
  CenterX : ℚ
  CenterY : ℚ
  CenterZ : ℚ
  ExtentX : ℚ
  ExtentY : ℚ
  ExtentZ : ℚ
  MinY : ℚ
  MaxY : ℚ
  IsLeaf : Bool
  IsVisible : Bool
  ObjectCBIndex : ℕ
deriving Repr, DecidableEq

/-- A `TerrainNode` tree.  The source stores four `unique_ptr` children that
    are either all null (no children allocated) or all allocated
    (`BuildTree` allocates all four at once); `leaf` models the all-null
    state, `node` the all-allocated state. -/
inductive QNode where
  | leaf (f : NodeFields)
  | node (f : NodeFields) (c0 c1 c2 c3 : QNode)
deriving Repr, DecidableEq

/-- The fields of a tree's root node. -/
def QNode.f : QNode → NodeFields
  | .leaf f => f
  | .node f _ _ _ _ => f

/-- `BoundingBoxAABB::Intersects` for a single plane: the "positive vertex"
    signed distance (QuadTree.cpp lines 13-18). -/
def posVertexDist (f : NodeFields) (pl : Plane) : ℚ :=
  let vx := if 0 ≤ pl.a then f.CenterX + f.ExtentX else f.CenterX - f.ExtentX
  let vy := if 0 ≤ pl.b then f.CenterY + f.ExtentY else f.CenterY - f.ExtentY
  let vz := if 0 ≤ pl.c then f.CenterZ + f.ExtentZ else f.CenterZ - f.ExtentZ
  pl.a * vx + pl.b * vy + pl.c * vz + pl.d

/-- `BoundingBoxAABB::Intersects`: false as soon as the positive vertex is
    behind one plane.  Callers pass exactly 6 planes. -/
def intersects (f : NodeFields) (planes : List Plane) : Bool :=
  planes.all (fun pl => !(decide (posVertexDist f pl < 0)))

/-- The 8 corners of a node's axis-aligned bounding box. -/
def boxCorners (f : NodeFields) : List (ℚ × ℚ × ℚ) :=
  [ (f.CenterX - f.ExtentX, f.CenterY - f.ExtentY, f.CenterZ - f.ExtentZ),
    (f.CenterX - f.ExtentX, f.CenterY - f.ExtentY, f.CenterZ + f.ExtentZ),
    (f.CenterX - f.ExtentX, f.CenterY + f.ExtentY, f.CenterZ - f.ExtentZ),
    (f.CenterX - f.ExtentX, f.CenterY + f.ExtentY, f.CenterZ + f.ExtentZ),
    (f.CenterX + f.ExtentX, f.CenterY - f.ExtentY, f.CenterZ - f.ExtentZ),
    (f.CenterX + f.ExtentX, f.CenterY - f.ExtentY, f.CenterZ + f.ExtentZ),
    (f.CenterX + f.ExtentX, f.CenterY + f.ExtentY, f.CenterZ - f.ExtentZ),
    (f.CenterX + f.ExtentX, f.CenterY + f.ExtentY, f.CenterZ + f.ExtentZ) ]

/-- Signed distance of a point to a plane. -/
def planeDist (pl : Plane) (p : ℚ × ℚ × ℚ) : ℚ :=
  pl.a * p.1 + pl.b * p.2.1 + pl.c * p.2.2 + pl.d

/-- "The box lies entirely on the negative side of the plane": every corner
    has signed distance < 0. -/
def entirelyNegative (f : NodeFields) (pl : Plane) : Bool :=
  (boxCorners f).all (fun p => decide (planeDist pl p < 0))

/-- `QuadTree::CalculateLOD`'s scan loop (QuadTree.cpp lines 149-155):
    first index (starting at `i`) whose threshold exceeds the distance,
    else the fallback `maxLODLevels - 1`. -/
def lodLoop (d2 : ℚ) : List ℚ → ℤ → ℤ → ℤ
  | [], _, fb => fb
  | t :: rest, i, fb => if ltSqrt d2 t then i else lodLoop d2 rest (i + 1) fb

/-- The squared 3D camera-to-node-center distance of `QuadTree::CalculateLOD`
    (lines 139-147); the node center is `(X, (MinY+MaxY)/2, Z)`. -/
def nodeDist2 (f : NodeFields) (cam : ℚ × ℚ × ℚ) : ℚ :=
  let cy := (f.MinY + f.MaxY) / 2
  let dx := cam.1 - f.X
  let dy := cam.2.1 - cy
  let dz := cam.2.2 - f.Z
  dx * dx + dy * dy + dz * dz

/-- `QuadTree::CalculateLOD`: 3D camera-to-node-center distance compared
    against the LOD distance table. -/
def calculateLOD (lodT : List ℚ) (maxL : ℤ) (f : NodeFields) (cam : ℚ × ℚ × ℚ) : ℤ :=
  lodLoop (nodeDist2 f cam) lodT 0 (maxL - 1)

/-- `QuadTree::ShouldSubdivide`: leaf never subdivides; otherwise the
    horizontal (XZ) camera distance must be below `1.5 * size`. -/
def shouldSubdivide (f : NodeFields) (cam : ℚ × ℚ × ℚ) : Bool :=
  if f.IsLeaf then false
  else
    let dx := cam.1 - f.X
    let dz := cam.2.2 - f.Z
    ltSqrt (dx * dx + dz * dz) (f.Size * (3 / 2))

/-- Result of updating one subtree: the updated subtree, the next
    `mNextObjectCBIndex`, the updated `mVisibleNodeCount`, and (pure
    instrumentation recording which `node->ObjectCBIndex = mNextObjectCBIndex++;`
    assignments happened) the draw-target nodes in assignment order. -/
structure UpdRes where
  t : QNode
  cb : ℕ
  cnt : ℕ
  targets : List NodeFields
deriving Repr, DecidableEq

/-- `QuadTree::UpdateNode` (QuadTree.cpp lines 111-135), with the
    `mNextObjectCBIndex` / `mVisibleNodeCount` members threaded through. -/
def updateNode (cam : ℚ × ℚ × ℚ) (planes : List Plane) (lodT : List ℚ) (maxL : ℤ) :
    QNode → ℕ → ℕ → UpdRes
  | .leaf f, cb, cnt =>
    if intersects f planes then
      let f1 := { f with IsVisible := true,
                         LODLevel := calculateLOD lodT maxL f cam }
      if !f1.IsLeaf && shouldSubdivide f1 cam then
        -- all four children are null: the loop body never runs
        ⟨.leaf { f1 with IsVisible := false }, cb, cnt, []⟩
      else
        let f2 := { f1 with ObjectCBIndex := cb }
        ⟨.leaf f2, cb + 1, cnt + 1, [f2]⟩
    else
      ⟨.leaf { f with IsVisible := false }, cb, cnt, []⟩
  | .node f c0 c1 c2 c3, cb, cnt =>
    if intersects f planes then
      let f1 := { f with IsVisible := true,
                         LODLevel := calculateLOD lodT maxL f cam }
      if !f1.IsLeaf && shouldSubdivide f1 cam then
        let r0 := updateNode cam planes lodT maxL c0 cb cnt
        let r1 := updateNode cam planes lodT maxL c1 r0.cb r0.cnt
        let r2 := updateNode cam planes lodT maxL c2 r1.cb r1.cnt
        let r3 := updateNode cam planes lodT maxL c3 r2.cb r2.cnt
        ⟨.node { f1 with IsVisible := false } r0.t r1.t r2.t r3.t,
          r3.cb, r3.cnt, r0.targets ++ r1.targets ++ r2.targets ++ r3.targets⟩
      else
        let f2 := { f1 with ObjectCBIndex := cb }
        ⟨.node f2 c0 c1 c2 c3, cb + 1, cnt + 1, [f2]⟩
    else
      ⟨.node { f with IsVisible := false } c0 c1 c2 c3, cb, cnt, []⟩

/-- `QuadTree::Update`: resets both counters to 0 and re-evaluates the tree. -/
def update (cam : ℚ × ℚ × ℚ) (planes : List Plane) (lodT : List ℚ) (maxL : ℤ)
    (t : QNode) : UpdRes :=
  updateNode cam planes lodT maxL t 0 0

/-- `QuadTree::CollectVisibleNodes` / `GetVisibleNodes`: depth-first
    collection of nodes flagged visible, child order 0,1,2,3. -/
def collectVisibleNodes : QNode → List NodeFields
  | .leaf f => if f.IsVisible then [f] else []
  | .node f c0 c1 c2 c3 =>
    if f.IsVisible then [f]
    else if f.IsLeaf then []
    else collectVisibleNodes c0 ++ collectVisibleNodes c1 ++
         collectVisibleNodes c2 ++ collectVisibleNodes c3

/-- `QuadTree::SetHeightRange` (QuadTree.cpp lines 198-210): ignores
    `x`, `z`, `size` and patches only the root's vertical fields. -/
def setHeightRange (t : QNode) (_x _z _size minY maxY : ℚ) : QNode :=
  match t with
  | .leaf f =>
    .leaf { f with MinY := minY, MaxY := maxY,
                   CenterY := (minY + maxY) / 2,
                   ExtentY := (maxY - minY) / 2 + 10 }
  | .node f c0 c1 c2 c3 =>
    .node { f with MinY := minY, MaxY := maxY,
                   CenterY := (minY + maxY) / 2,
                   ExtentY := (maxY - minY) / 2 + 10 } c0 c1 c2 c3

/-- The fields `QuadTree::BuildTree` writes into a fresh node at
    `(x, z, size, depth)` (QuadTree.cpp lines 63-77): `MinY = 0`,
    `MaxY = 100`, bounds center `(x, (MinY+MaxY)/2, z)` and extents
    `(size/2, (MaxY-MinY)/2 + 10, size/2)`. -/
def buildFields (maxL : ℕ) (x z size : ℚ) (depth : ℕ) : NodeFields :=
  { X := x, Z := z, Size := size,
    LODLevel := depth, MaxLOD := (maxL : ℤ) - 1,
    CenterX := x, CenterY := (0 + 100) / 2, CenterZ := z,
    ExtentX := size / 2, ExtentY := (100 - 0) / 2 + 10, ExtentZ := size / 2,
    MinY := 0, MaxY := 100,
    IsLeaf := true, IsVisible := false, ObjectCBIndex := 0 }

/-- `QuadTree::BuildTree` (QuadTree.cpp lines 61-100).  `maxL` is
    `mMaxLODLevels`; the C++ split test `size > minNodeSize && depth <
    maxLODLevels - 1` over `int` equals `minNS < size ∧ depth + 1 < maxL`
    over ℕ since `depth ≥ 0`.  Recursion is bounded by that test:
    `fuel` is only consumed on recursive calls and every call site passes
    `fuel ≥ maxL - depth`, so the `fuel = 0` fallback (which would need
    `depth + 1 < maxL ≤ depth + fuel = depth`) is unreachable. -/
def buildTree (minNS : ℚ) (maxL : ℕ) : (fuel : ℕ) → ℚ → ℚ → ℚ → ℕ → QNode
  | fuel, x, z, size, depth =>
    let f := buildFields maxL x z size depth
    if minNS < size ∧ depth + 1 < maxL then
      match fuel with
      | fuel' + 1 =>
        .node { f with IsLeaf := false }
          (buildTree minNS maxL fuel' (x - size / 4) (z + size / 4) (size / 2) (depth + 1))
          (buildTree minNS maxL fuel' (x + size / 4) (z + size / 4) (size / 2) (depth + 1))
          (buildTree minNS maxL fuel' (x - size / 4) (z - size / 4) (size / 2) (depth + 1))
          (buildTree minNS maxL fuel' (x + size / 4) (z - size / 4) (size / 2) (depth + 1))
      | 0 => .leaf f
    else
      .leaf f

/-- `QuadTree::Initialize`'s LOD-distance table:
    entry `i` is `minNodeSize * 2^(maxLODLevels - i - 1) * 2`. -/
def initLODDistances (minNS : ℚ) (maxL : ℕ) : List ℚ :=
  (List.range maxL).map (fun i => minNS * (2 ^ (maxL - i - 1) : ℕ) * 2)

/-- `QuadTree::Initialize`: builds the root at `(0,0)` with the full terrain
    size at depth 0. -/
def initTree (terrainSize minNS : ℚ) (maxL : ℕ) : QNode :=
  buildTree minNS maxL maxL 0 0 terrainSize 0

end TerrainLOD

namespace Terrain

/-!  Heightfield store (Terrain.cpp).  The grid of normalized samples
`mHeightmap` is a row-major `List ℚ` of length `width * height`. -/

/-- The clamped texel coordinates used by `Terrain::SampleHeight`
    (Terrain.cpp lines 282-286): edge-clamp into `[0,w-1] × [0,h-1]`. -/
def clampPair (w h : ℕ) (x z : ℤ) : ℤ × ℤ :=
  (max 0 (min x ((w : ℤ) - 1)), max 0 (min z ((h : ℤ) - 1)))

/-- `Terrain::SampleHeight`: clamp, then read the row-major grid. -/
def sampleHeight (grid : List ℚ) (w h : ℕ) (x z : ℤ) : ℚ :=
  let p := clampPair w h x z
  grid.getD (p.2.toNat * w + p.1.toNat) 0

/-- `Terrain::GetHeight` (Terrain.cpp lines 235-259): world position to
    fractional texel coordinates, bilinear interpolation of the four
    clamped neighbours, then mapping through the world height range. -/
def getHeight (grid : List ℚ) (w h : ℕ) (ts minH maxH : ℚ) (x z : ℚ) : ℚ :=
  if grid = [] then 0
  else
    let u := (x / ts + 1 / 2) * (w : ℚ)
    let v := (z / ts + 1 / 2) * (h : ℚ)
    let x0 : ℤ := Int.floor u
    let z0 : ℤ := Int.floor v
    let fx := u - (x0 : ℚ)
    let fz := v - (z0 : ℚ)
    let h00 := sampleHeight grid w h x0 z0
    let h10 := sampleHeight grid w h (x0 + 1) z0
    let h01 := sampleHeight grid w h x0 (z0 + 1)
    let h11 := sampleHeight grid w h (x0 + 1) (z0 + 1)
    let hx0 := h00 + (h10 - h00) * fx
    let hx1 := h01 + (h11 - h01) * fx
    let hh := hx0 + (hx1 - hx0) * fz
    minH + hh * (maxH - minH)

/-- The four grid positions `Terrain::GetHeight` reads (through
    `SampleHeight`'s clamp) for a world query `(x, z)`. -/
def getHeightReads (w h : ℕ) (ts : ℚ) (x z : ℚ) : List (ℤ × ℤ) :=
  let u := (x / ts + 1 / 2) * (w : ℚ)
  let v := (z / ts + 1 / 2) * (h : ℚ)
  let x0 : ℤ := Int.floor u
  let z0 : ℤ := Int.floor v
  [clampPair w h x0 z0, clampPair w h (x0 + 1) z0,
   clampPair w h x0 (z0 + 1), clampPair w h (x0 + 1) (z0 + 1)]

/-- `Terrain::GetNormal` before the (floating-point intrinsic)
    normalization: the central-difference vector built from four
    `GetHeight` queries one texel step apart. -/
def getNormalRaw (grid : List ℚ) (w h : ℕ) (ts minH maxH : ℚ) (x z : ℚ) :
    ℚ × ℚ × ℚ :=
  let step := ts / (w : ℚ)
  (getHeight grid w h ts minH maxH (x - step) z -
     getHeight grid w h ts minH maxH (x + step) z,
   2 * step,
   getHeight grid w h ts minH maxH x (z - step) -
     getHeight grid w h ts minH maxH x (z + step))

/-- The grid positions `Terrain::GetNormal` reads: the union of the reads of
    its four `GetHeight` calls. -/
def getNormalReads (w h : ℕ) (ts : ℚ) (x z : ℚ) : List (ℤ × ℤ) :=
  let step := ts / (w : ℚ)
  getHeightReads w h ts (x - step) z ++ getHeightReads w h ts (x + step) z ++
  getHeightReads w h ts x (z - step) ++ getHeightReads w h ts x (z + step)

/-!  `Terrain::LoadHeightmap` (Terrain.cpp lines 44-73).  The raw file is a
`List ℕ` of bytes.  `std::ifstream::read` into the exact-size,
zero-initialized `raw` vector copies the available bytes and leaves the rest
zero (the stream's fail state is never checked by the source); on the
little-endian target a `uint16_t` sample `i` is
`buf[2i] + 256 * buf[2i+1]`. -/

/-- `in.read(buf, n)`: the first `min n file.length` bytes of the file,
    zero-filled up to length `n`. -/
def streamRead (file : List ℕ) (n : ℕ) : List ℕ :=
  file.take n ++ List.replicate (n - file.length) 0

/-- `Terrain::LoadHeightmap` on an already-opened file: returns the C++
    return value (always `true` once the file opened) and `mHeightmap`. -/
def loadHeightmap (file : List ℕ) (w h : ℕ) (is16Bit : Bool) : Bool × List ℚ :=
  let count := w * h
  if is16Bit then
    let buf := streamRead file (count * 2)
    (true, (List.range count).map
      (fun i => ((buf.getD (2 * i) 0 + 256 * buf.getD (2 * i + 1) 0 : ℕ) : ℚ) / 65535))
  else
    let buf := streamRead file count
    (true, (List.range count).map (fun i => ((buf.getD i 0 : ℕ) : ℚ) / 255))

/-!  Perlin noise and `Terrain::GenerateProceduralHeightmap`
(Terrain.cpp lines 105-149 and 291-335).  The permutation table (filled by a
`std::random_device`-seeded shuffle) is an arbitrary parameter
`perm : ℕ → ℕ`. -/

/-- `Terrain::Fade`: the quintic fade curve. -/
def fadeQ (t : ℚ) : ℚ :=
  t * t * t * (t * (t * 6 - 15) + 10)

/-- `Terrain::Lerp`. -/
def lerpQ (a b t : ℚ) : ℚ :=
  a + t * (b - a)

/-- `Terrain::Grad`: `hash & 3` selects one of four gradients
    (for `h < 4`, `h & 2 ≠ 0 ↔ 2 ≤ h`). -/
def gradQ (hash : ℕ) (x z : ℚ) : ℚ :=
  let h := hash % 4
  let u := if h < 2 then x else z
  let v := if h < 2 then z else x
  (if h % 2 = 1 then -u else u) + (if 2 ≤ h then -v else v)

/-- `Terrain::PerlinNoise`.  `((int)std::floor(x)) & 255` is the value of
    `⌊x⌋` modulo 256 (two's complement bitwise-and on the low byte). -/
def perlinNoise (perm : ℕ → ℕ) (x z : ℚ) : ℚ :=
  let X := ((Int.floor x).emod 256).toNat
  let Z := ((Int.floor z).emod 256).toNat
  let xf := x - (Int.floor x : ℚ)
  let zf := z - (Int.floor z : ℚ)
  let u := fadeQ xf
  let v := fadeQ zf
  let A := perm X + Z
  let B := perm (X + 1) + Z
  let g00 := gradQ (perm A) xf zf
  let g10 := gradQ (perm B) (xf - 1) zf
  let g01 := gradQ (perm (A + 1)) xf (zf - 1)
  let g11 := gradQ (perm (B + 1)) (xf - 1) (zf - 1)
  lerpQ (lerpQ g00 g10 u) (lerpQ g01 g11 u) v

/-- The octave loop of `GenerateProceduralHeightmap` (lines 126-133):
    state `(sum, amp, freq, ampSum)` after `o` iterations. -/
def octaveState (perm : ℕ → ℕ) (nx nz frequency : ℚ) : ℕ → ℚ × ℚ × ℚ × ℚ
  | 0 => (0, 1, frequency, 0)
  | o + 1 =>
    let s := octaveState perm nx nz frequency o
    (s.1 + perlinNoise perm (nx * s.2.2.1) (nz * s.2.2.1) * s.2.1,
     s.2.1 / 2, s.2.2.1 * 2, s.2.2.2 + s.2.1)

/-- The remapped cell value `v = (sum / ampSum + 1) * 0.5` stored at grid
    cell `(x, z)` before the final rescale. -/
def cellValue (perm : ℕ → ℕ) (w h : ℕ) (frequency : ℚ) (octaves : ℕ)
    (x z : ℕ) : ℚ :=
  let s := octaveState perm ((x : ℚ) / (w : ℚ)) ((z : ℚ) / (h : ℚ)) frequency octaves
  (s.1 / s.2.2.2 + 1) / 2

/-- The full grid before the rescale, in row-major order. -/
def genGrid (perm : ℕ → ℕ) (w h : ℕ) (frequency : ℚ) (octaves : ℕ) : List ℚ :=
  (List.range h).flatMap (fun z => (List.range w).map (fun x => cellValue perm w h frequency octaves x z))

/-- `Terrain::GenerateProceduralHeightmap`: generate, track `lo`/`hi`
    (initialized to 1 and 0 as in lines 111-112), rescale when the realized
    range exceeds 0.001. -/
def generateProceduralHeightmap (perm : ℕ → ℕ) (w h : ℕ) (frequency : ℚ)
    (octaves : ℕ) : List ℚ :=
  let g := genGrid perm w h frequency octaves
  let lo := g.foldl min 1
  let hi := g.foldl max 0
  let range := hi - lo
  if 1 / 1000 < range then g.map (fun v => (v - lo) / range) else g

end Terrain

/-! ## Theorems -/

namespace TerrainLOD

/-- The children of a tree's root (empty when no children are allocated). -/
def QNode.childList : QNode → List QNode
  | .leaf _ => []
  | .node _ c0 c1 c2 c3 => [c0, c1, c2, c3]

/-- **C9** For every tree state and every arguments `(x, z, size, minY, maxY)`,
`SetHeightRange` modifies only the root node's `MinY`, `MaxY` and the Y
components of the root's bounding-box center and extents; every other field of
the root (X, Z, Size, horizontal bounding extents, children, flags) and every
field of every descendant node is unchanged. -/
theorem c9_set_height_range_root_only (t : QNode) (x z size minY maxY : ℚ) :
    (setHeightRange t x z size minY maxY).f.MinY = minY ∧
    (setHeightRange t x z size minY maxY).f.MaxY = maxY ∧
    (setHeightRange t x z size minY maxY).f.CenterY = (minY + maxY) / 2 ∧
    (setHeightRange t x z size minY maxY).f.ExtentY = (maxY - minY) / 2 + 10 ∧
    (setHeightRange t x z size minY maxY).f.X = t.f.X ∧
    (setHeightRange t x z size minY maxY).f.Z = t.f.Z ∧
    (setHeightRange t x z size minY maxY).f.Size = t.f.Size ∧
    (setHeightRange t x z size minY maxY).f.LODLevel = t.f.LODLevel ∧
    (setHeightRange t x z size minY maxY).f.MaxLOD = t.f.MaxLOD ∧
    (setHeightRange t x z size minY maxY).f.CenterX = t.f.CenterX ∧
    (setHeightRange t x z size minY maxY).f.CenterZ = t.f.CenterZ ∧
    (setHeightRange t x z size minY maxY).f.ExtentX = t.f.ExtentX ∧
    (setHeightRange t x z size minY maxY).f.ExtentZ = t.f.ExtentZ ∧
    (setHeightRange t x z size minY maxY).f.IsLeaf = t.f.IsLeaf ∧
    (setHeightRange t x z size minY maxY).f.IsVisible = t.f.IsVisible ∧
    (setHeightRange t x z size minY maxY).f.ObjectCBIndex = t.f.ObjectCBIndex ∧
    (setHeightRange t x z size minY maxY).childList = t.childList := by
  cases t <;> simp [setHeightRange, QNode.f, QNode.childList]

/-- All nodes of a tree paired with their structural depth (root at `d`). -/
def nodesWithDepth : QNode → ℕ → List (NodeFields × ℕ)
  | .leaf f, d => [(f, d)]
  | .node f c0 c1 c2 c3, d =>
    (f, d) :: (nodesWithDepth c0 (d + 1) ++ nodesWithDepth c1 (d + 1) ++
               nodesWithDepth c2 (d + 1) ++ nodesWithDepth c3 (d + 1))

/-- The leaves of a tree (nodes with no children allocated), depth-first. -/
def leavesOf : QNode → List NodeFields
  | .leaf f => [f]
  | .node _ c0 c1 c2 c3 =>
    leavesOf c0 ++ leavesOf c1 ++ leavesOf c2 ++ leavesOf c3

/-- Membership of a point `(px, pz)` in the half-open square footprint of a
    node centered at `(x, z)` with side `size` (half-open so that footprints
    of sibling quadrants are disjoint and tile the parent exactly). -/
def inFootprint (x z size px pz : ℚ) : Bool :=
  decide (x - size / 2 ≤ px ∧ px < x + size / 2 ∧
          z - size / 2 ≤ pz ∧ pz < z + size / 2)

/-- A point of the parent square lies in exactly one of the four quadrant
    squares produced by `BuildTree`'s subdivision. -/
theorem quadrant_partition (x z size px pz : ℚ) :
    (if inFootprint (x - size / 4) (z + size / 4) (size / 2) px pz = true then 1 else 0) +
    (if inFootprint (x + size / 4) (z + size / 4) (size / 2) px pz = true then 1 else 0) +
    (if inFootprint (x - size / 4) (z - size / 4) (size / 2) px pz = true then 1 else 0) +
    (if inFootprint (x + size / 4) (z - size / 4) (size / 2) px pz = true then 1 else 0) =
    (if inFootprint x z size px pz = true then (1 : ℕ) else 0) := by
  simp only [inFootprint, decide_eq_true_eq]
  have k0 : (x - size / 4 - size / 2 / 2 ≤ px ∧ px < x - size / 4 + size / 2 / 2 ∧
      z + size / 4 - size / 2 / 2 ≤ pz ∧ pz < z + size / 4 + size / 2 / 2) ↔
      ((x - size / 2 ≤ px ∧ px < x + size / 2 ∧ z - size / 2 ≤ pz ∧ pz < z + size / 2) ∧
        px < x ∧ z ≤ pz) := by
    constructor
    · rintro ⟨a, b, c, d⟩
      refine ⟨⟨by linarith, by linarith, by linarith, by linarith⟩, by linarith, by linarith⟩
    · rintro ⟨⟨a, b, c, d⟩, e, g⟩
      exact ⟨by linarith, by linarith, by linarith, by linarith⟩
  have k1 : (x + size / 4 - size / 2 / 2 ≤ px ∧ px < x + size / 4 + size / 2 / 2 ∧
      z + size / 4 - size / 2 / 2 ≤ pz ∧ pz < z + size / 4 + size / 2 / 2) ↔
      ((x - size / 2 ≤ px ∧ px < x + size / 2 ∧ z - size / 2 ≤ pz ∧ pz < z + size / 2) ∧
        x ≤ px ∧ z ≤ pz) := by
    constructor
    · rintro ⟨a, b, c, d⟩
      refine ⟨⟨by linarith, by linarith, by linarith, by linarith⟩, by linarith, by linarith⟩
    · rintro ⟨⟨a, b, c, d⟩, e, g⟩
      exact ⟨by linarith, by linarith, by linarith, by linarith⟩
  have k2 : (x - size / 4 - size / 2 / 2 ≤ px ∧ px < x - size / 4 + size / 2 / 2 ∧
      z - size / 4 - size / 2 / 2 ≤ pz ∧ pz < z - size / 4 + size / 2 / 2) ↔
      ((x - size / 2 ≤ px ∧ px < x + size / 2 ∧ z - size / 2 ≤ pz ∧ pz < z + size / 2) ∧
        px < x ∧ pz < z) := by
    constructor
    · rintro ⟨a, b, c, d⟩
      refine ⟨⟨by linarith, by linarith, by linarith, by linarith⟩, by linarith, by linarith⟩
    · rintro ⟨⟨a, b, c, d⟩, e, g⟩
      exact ⟨by linarith, by linarith, by linarith, by linarith⟩
  have k3 : (x + size / 4 - size / 2 / 2 ≤ px ∧ px < x + size / 4 + size / 2 / 2 ∧
      z - size / 4 - size / 2 / 2 ≤ pz ∧ pz < z - size / 4 + size / 2 / 2) ↔
      ((x - size / 2 ≤ px ∧ px < x + size / 2 ∧ z - size / 2 ≤ pz ∧ pz < z + size / 2) ∧
        x ≤ px ∧ pz < z) := by
    constructor
    · rintro ⟨a, b, c, d⟩
      refine ⟨⟨by linarith, by linarith, by linarith, by linarith⟩, by linarith, by linarith⟩
    · rintro ⟨⟨a, b, c, d⟩, e, g⟩
      exact ⟨by linarith, by linarith, by linarith, by linarith⟩
  rw [if_congr k0 rfl rfl, if_congr k1 rfl rfl, if_congr k2 rfl rfl, if_congr k3 rfl rfl]
  by_cases hP : x - size / 2 ≤ px ∧ px < x + size / 2 ∧ z - size / 2 ≤ pz ∧ pz < z + size / 2
  · rcases lt_or_le px x with hx | hx <;> rcases lt_or_le pz z with hz | hz
    · simp [hP, hx, hz, hx.not_le, hz.not_le]
    · simp [hP, hx, hz, hx.not_le, hz.not_lt]
    · simp [hP, hx, hz, hx.not_lt, hz.not_le]
    · simp [hP, hx, hz, hx.not_lt, hz.not_lt]
  · have hn : ∀ Q : Prop,
        ¬((x - size / 2 ≤ px ∧ px < x + size / 2 ∧
           z - size / 2 ≤ pz ∧ pz < z + size / 2) ∧ Q) :=
      fun _ h => hP h.1
    rw [if_neg (hn (px < x ∧ z ≤ pz)), if_neg (hn (x ≤ px ∧ z ≤ pz)),
        if_neg (hn (px < x ∧ pz < z)), if_neg (hn (x ≤ px ∧ pz < z)), if_neg hP]

/-- Structural invariant of `BuildTree`: every node of the subtree built at
    `(x, z, size, depth)` sits at structural depth `d` with
    `depth ≤ d ≤ maxL - 1`, has footprint size `size / 2^(d - depth)`, and is
    a leaf exactly when its size is at or below `minNS` or `d = maxL - 1`. -/
theorem buildTree_node_invariant (minNS : ℚ) (maxL : ℕ) :
    ∀ (fuel : ℕ) (x z size : ℚ) (depth : ℕ),
    maxL ≤ fuel + depth → depth + 1 ≤ maxL →
    ∀ p ∈ nodesWithDepth (buildTree minNS maxL fuel x z size depth) depth,
      depth ≤ p.2 ∧ p.2 ≤ maxL - 1 ∧ p.1.Size = size / 2 ^ (p.2 - depth) ∧
      (p.1.IsLeaf = true ↔ (p.1.Size ≤ minNS ∨ p.2 = maxL - 1)) := by
  intro fuel
  induction fuel with
  | zero =>
    intro x z size depth hfuel hd p hp
    exact absurd hfuel (by omega)
  | succ fuel' ih =>
    intro x z size depth hfuel hd p hp
    rw [buildTree] at hp
    by_cases hc : minNS < size ∧ depth + 1 < maxL
    · rw [if_pos hc] at hp
      simp only [nodesWithDepth, List.mem_cons, List.mem_append] at hp
      have step : ∀ cx cz : ℚ,
          p ∈ nodesWithDepth (buildTree minNS maxL fuel' cx cz (size / 2) (depth + 1))
            (depth + 1) →
          depth ≤ p.2 ∧ p.2 ≤ maxL - 1 ∧ p.1.Size = size / 2 ^ (p.2 - depth) ∧
          (p.1.IsLeaf = true ↔ (p.1.Size ≤ minNS ∨ p.2 = maxL - 1)) := by
        intro cx cz hmem
        obtain ⟨h1, h2, h3, h4⟩ :=
          ih cx cz (size / 2) (depth + 1) (by omega) (by omega) p hmem
        refine ⟨by omega, h2, ?_, h4⟩
        rw [h3, div_div, show p.2 - depth = (p.2 - (depth + 1)) + 1 by omega,
          pow_succ]
        ring_nf
      rcases hp with rfl | (((hp | hp) | hp) | hp)
      · refine ⟨le_refl _, by omega, by simp [buildFields], ?_⟩
        simp only [buildFields, Bool.false_eq_true, false_iff]
        push_neg
        exact ⟨hc.1, by omega⟩
      · exact step _ _ hp
      · exact step _ _ hp
      · exact step _ _ hp
      · exact step _ _ hp
    · rw [if_neg hc] at hp
      simp only [nodesWithDepth, List.mem_singleton] at hp
      subst hp
      refine ⟨le_refl _, by omega, by simp [buildFields], ?_⟩
      simp only [buildFields, true_iff]
      rcases not_and_or.mp hc with h | h
      · exact Or.inl (not_lt.mp h)
      · exact Or.inr (by omega)

/-- `BuildTree` tiling: a point lies in exactly one leaf footprint of the
    subtree built at `(x, z, size, depth)` when it lies in that subtree's
    footprint, and in none otherwise. -/
theorem buildTree_tiling (minNS : ℚ) (maxL : ℕ) :
    ∀ (fuel : ℕ) (x z size : ℚ) (depth : ℕ), maxL ≤ fuel + depth →
    ∀ px pz : ℚ,
      (leavesOf (buildTree minNS maxL fuel x z size depth)).countP
          (fun f => inFootprint f.X f.Z f.Size px pz) =
        if inFootprint x z size px pz = true then 1 else 0 := by
  intro fuel
  induction fuel with
  | zero =>
    intro x z size depth hfuel px pz
    rw [buildTree, if_neg (by rintro ⟨-, h⟩; omega)]
    simp [leavesOf, List.countP_cons, buildFields]
  | succ fuel' ih =>
    intro x z size depth hfuel px pz
    rw [buildTree]
    by_cases hc : minNS < size ∧ depth + 1 < maxL
    · rw [if_pos hc]
      simp only [leavesOf, List.countP_append]
      rw [ih (x - size / 4) (z + size / 4) (size / 2) (depth + 1) (by omega) px pz,
          ih (x + size / 4) (z + size / 4) (size / 2) (depth + 1) (by omega) px pz,
          ih (x - size / 4) (z - size / 4) (size / 2) (depth + 1) (by omega) px pz,
          ih (x + size / 4) (z - size / 4) (size / 2) (depth + 1) (by omega) px pz]
      exact quadrant_partition x z size px pz
    · rw [if_neg hc]
      simp [leavesOf, List.countP_cons, buildFields]

/-- **C3** For every tree built by `Initialize(footprintSize F, minNodeSize M,
maxDepth D)` with `D ≥ 1`: a node is a leaf if and only if its footprint size
is at or below `M` or its depth equals `D-1`; every leaf's footprint size
equals `F / 2^k` for some `k ≤ D-1`; and the union of all leaf footprints
exactly tiles the root's square footprint with no gaps or overlaps (every
point of the root's half-open square lies in exactly one leaf's half-open
square, and points outside it in none). -/
theorem c3_leaf_condition_sizes_and_tiling (F minNS : ℚ) (maxL : ℕ)
    (hmaxL : 1 ≤ maxL) :
    (∀ p ∈ nodesWithDepth (initTree F minNS maxL) 0,
        (p.1.IsLeaf = true ↔ (p.1.Size ≤ minNS ∨ p.2 = maxL - 1))) ∧
    (∀ p ∈ nodesWithDepth (initTree F minNS maxL) 0, p.1.IsLeaf = true →
        ∃ k, k ≤ maxL - 1 ∧ p.1.Size = F / 2 ^ k) ∧
    (∀ px pz : ℚ,
        (leavesOf (initTree F minNS maxL)).countP
            (fun f => inFootprint f.X f.Z f.Size px pz) =
          if inFootprint 0 0 F px pz = true then 1 else 0) := by
  refine ⟨?_, ?_, ?_⟩
  · intro p hp
    exact (buildTree_node_invariant minNS maxL maxL 0 0 F 0
      (by omega) (by omega) p hp).2.2.2
  · intro p hp _
    obtain ⟨-, h2, h3, -⟩ := buildTree_node_invariant minNS maxL maxL 0 0 F 0
      (by omega) (by omega) p hp
    exact ⟨p.2, h2, by simpa using h3⟩
  · intro px pz
    exact buildTree_tiling minNS maxL maxL 0 0 F 0 (by omega) px pz

/-- Witness for `c3_leaf_condition_sizes_and_tiling` at
`Initialize(512, 256, 2)`. -/
theorem c3_leaf_condition_sizes_and_tiling_witness :
    (1 ≤ 2) ∧
    (∀ p ∈ nodesWithDepth (initTree 512 256 2) 0,
        (p.1.IsLeaf = true ↔ (p.1.Size ≤ 256 ∨ p.2 = 2 - 1))) ∧
    (∀ p ∈ nodesWithDepth (initTree 512 256 2) 0, p.1.IsLeaf = true →
        ∃ k, k ≤ 2 - 1 ∧ p.1.Size = 512 / 2 ^ k) ∧
    (∀ px pz : ℚ,
        (leavesOf (initTree 512 256 2)).countP
            (fun f => inFootprint f.X f.Z f.Size px pz) =
          if inFootprint 0 0 512 px pz = true then 1 else 0) :=
  ⟨by norm_num, (c3_leaf_condition_sizes_and_tiling 512 256 2 (by norm_num)).1,
   (c3_leaf_condition_sizes_and_tiling 512 256 2 (by norm_num)).2.1,
   (c3_leaf_condition_sizes_and_tiling 512 256 2 (by norm_num)).2.2⟩

/-- The LOD level as the spec words it: "the index of the first table entry
    strictly exceeding the distance, or the coarsest level (maxDepth-1) if no
    entry exceeds it".  Stated on the squared distance through `ltSqrt`. -/
def lodSpecIndex (d2 : ℚ) (lodT : List ℚ) (maxL : ℤ) : ℤ :=
  match lodT.findIdx? (fun t => ltSqrt d2 t) with
  | some i => (i : ℤ)
  | none => maxL - 1

/-- The scan loop returns the first matching index counted from its start
    index, or the fallback. -/
theorem lodLoop_eq_findIdx (d2 : ℚ) : ∀ (l : List ℚ) (i : ℕ) (fb : ℤ),
    lodLoop d2 l (i : ℤ) fb =
      match l.findIdx? (fun t => ltSqrt d2 t) i with
      | some j => (j : ℤ)
      | none => fb := by
  intro l
  induction l with
  | nil => intro i fb; simp [lodLoop]
  | cons t rest ih =>
    intro i fb
    simp only [lodLoop, List.findIdx?_cons]
    by_cases hp : ltSqrt d2 t = true
    · simp [hp]
    · have hrec := ih (i + 1) fb
      push_cast at hrec
      simp [hp, hrec]

/-- The scan loop never returns less than the smaller of its start index and
    its fallback. -/
theorem lodLoop_lower (d2 : ℚ) : ∀ (l : List ℚ) (j fb : ℤ),
    min j fb ≤ lodLoop d2 l j fb := by
  intro l
  induction l with
  | nil => intro j fb; simp [lodLoop]
  | cons t rest ih =>
    intro j fb
    simp only [lodLoop]
    by_cases hp : ltSqrt d2 t = true
    · simp [hp]
    · simp only [hp, if_false, Bool.false_eq_true]
      have h1 : min j fb ≤ min (j + 1) fb := by omega
      exact le_trans h1 (ih (j + 1) fb)

/-- Monotonicity of the scan loop in the distance, provided every in-loop
    index stays at or below the fallback. -/
theorem lodLoop_mono (d1 d2 : ℚ) (hd : d1 ≤ d2) : ∀ (l : List ℚ) (i fb : ℤ),
    i + l.length ≤ fb + 1 → lodLoop d1 l i fb ≤ lodLoop d2 l i fb := by
  intro l
  induction l with
  | nil => intro i fb _; simp [lodLoop]
  | cons t rest ih =>
    intro i fb hfb
    simp only [List.length_cons] at hfb
    push_cast at hfb
    simp only [lodLoop]
    by_cases h2 : ltSqrt d2 t = true
    · have h1 : ltSqrt d1 t = true := by
        simp only [ltSqrt, decide_eq_true_eq] at h2 ⊢
        exact ⟨h2.1, lt_of_le_of_lt hd h2.2⟩
      simp [h1, h2]
    · by_cases h1 : ltSqrt d1 t = true
      · simp only [h1, h2, if_true, if_false, Bool.false_eq_true]
        have hl := lodLoop_lower d2 rest (i + 1) fb
        have hi : i ≤ min (i + 1) fb := by
          have : (0 : ℤ) ≤ rest.length := by positivity
          omega
        exact le_trans hi hl
      · simp only [h1, h2, if_false, Bool.false_eq_true]
        refine ih (i + 1) fb ?_
        omega

/-- **C5 counterexample** The claim asserts LOD monotonicity for *every* LOD
distance table.  With the table `[10, 20, 2800]` installed through
`SetLODDistances` (one entry more than `maxLODLevels = 2`), camera
`(2872, 50, 128)`, and the two depth-1 children of `Initialize(512, 256, 2)`
at `(-128, 128)` and `(128, 128)`: the farther node (squared distance
`3000^2`) falls past every threshold and gets the fallback level `1`, while
the strictly closer node (squared distance `2744^2 < 2800^2`) gets level `2`
from the third table entry — the farther node's LOD index is *smaller*,
contradicting the claimed `≥`. -/
theorem c5_long_table_breaks_monotonicity :
    let lodT : List ℚ := [10, 20, 2800]
    let cam : ℚ × ℚ × ℚ := (2872, 50, 128)
    let n0 := buildFields 2 (-128) 128 256 1
    let n1 := buildFields 2 128 128 256 1
    initTree 512 256 2 = QNode.node { buildFields 2 0 0 512 0 with IsLeaf := false }
        (.leaf n0) (.leaf n1) (.leaf (buildFields 2 (-128) (-128) 256 1))
        (.leaf (buildFields 2 128 (-128) 256 1)) ∧
    n0.LODLevel = 1 ∧ n1.LODLevel = 1 ∧
    nodeDist2 n1 cam < nodeDist2 n0 cam ∧
    calculateLOD lodT 2 n0 cam < calculateLOD lodT 2 n1 cam := by
  refine ⟨by norm_num [initTree, buildTree], rfl, rfl, ?_, ?_⟩
  · norm_num [nodeDist2, buildFields]
  · norm_num [calculateLOD, nodeDist2, buildFields, lodLoop, ltSqrt]

/-- **C5 (amended)** For every LOD distance table and every camera position,
the LOD level computed for a node is the index of the first table entry
strictly exceeding the 3D camera-to-node-center distance, or the coarsest
level (`maxDepth - 1`) if no entry exceeds it.  Whenever the table has at
most `maxDepth` entries — as the table built by `Initialize` always does —
a node farther from the camera (larger squared center distance) is assigned
an LOD index greater than or equal to a closer node's; for longer tables
this consequence fails (`c5_long_table_breaks_monotonicity`). -/
theorem c5_lod_first_threshold_and_bounded_monotone :
    (∀ (lodT : List ℚ) (maxL : ℤ) (f : NodeFields) (cam : ℚ × ℚ × ℚ),
      calculateLOD lodT maxL f cam = lodSpecIndex (nodeDist2 f cam) lodT maxL) ∧
    (∀ (lodT : List ℚ) (maxL : ℤ) (f1 f2 : NodeFields) (cam : ℚ × ℚ × ℚ),
      (lodT.length : ℤ) ≤ maxL →
      nodeDist2 f1 cam ≤ nodeDist2 f2 cam →
      calculateLOD lodT maxL f1 cam ≤ calculateLOD lodT maxL f2 cam) := by
  constructor
  · intro lodT maxL f cam
    have h := lodLoop_eq_findIdx (nodeDist2 f cam) lodT 0 (maxL - 1)
    simpa [calculateLOD, lodSpecIndex] using h
  · intro lodT maxL f1 f2 cam hlen hd
    exact lodLoop_mono _ _ hd lodT 0 (maxL - 1) (by omega)

/-- Witness for `c5_lod_first_threshold_and_bounded_monotone` with the
2-entry table `[4, 8]`, `maxDepth = 2`, camera at the origin, and two nodes
of the `Initialize(512, 256, 2)` tree. -/
theorem c5_lod_first_threshold_and_bounded_monotone_witness :
    (((([4, 8] : List ℚ).length : ℤ) ≤ 2) ∧
      nodeDist2 (buildFields 2 0 0 512 0) (0, 0, 0) ≤
        nodeDist2 (buildFields 2 128 128 256 1) (0, 0, 0)) ∧
    calculateLOD [4, 8] 2 (buildFields 2 0 0 512 0) (0, 0, 0) =
      lodSpecIndex (nodeDist2 (buildFields 2 0 0 512 0) (0, 0, 0)) [4, 8] 2 ∧
    calculateLOD [4, 8] 2 (buildFields 2 0 0 512 0) (0, 0, 0) ≤
      calculateLOD [4, 8] 2 (buildFields 2 128 128 256 1) (0, 0, 0) :=
  ⟨⟨by norm_num, by norm_num [nodeDist2, buildFields]⟩,
   c5_lod_first_threshold_and_bounded_monotone.1 [4, 8] 2 (buildFields 2 0 0 512 0) (0, 0, 0),
   c5_lod_first_threshold_and_bounded_monotone.2 [4, 8] 2 (buildFields 2 0 0 512 0)
     (buildFields 2 128 128 256 1) (0, 0, 0) (by norm_num)
     (by norm_num [nodeDist2, buildFields])⟩

/-- **C1 (code bug)** The claim says a node whose bounding box lies entirely on
the negative side of a frustum plane during `Update` never appears — nor does
any node of its subtree — in a subsequent `GetVisibleNodes`, for every
sequence of `Update` calls.  The code violates this: `UpdateNode` returns
early on a failed frustum test without clearing descendants' stale
`IsVisible` flags, and `CollectVisibleNodes` descends through invisible
non-leaf nodes.  Failing input: tree `Initialize(512, 256, 2)`; frame 1
updates with camera `(0,0,0)` and six always-true planes `(0,0,0,1)`, making
the four leaf children draw targets; frame 2 updates with planes
`(1,0,0,-10000)`, behind which the whole terrain lies.  After frame 2 the
root's box is entirely on the negative side of that plane (so by the claim
nothing of its subtree may be listed), yet `GetVisibleNodes` returns all
four children of frame 1 — each itself also entirely behind the plane —
while `GetVisibleNodeCount` simultaneously reports 0. -/
theorem c1_stale_descendants_escape_culling :
    let planes1 : List Plane := List.replicate 6 ⟨0, 0, 0, 1⟩
    let pl2 : Plane := ⟨1, 0, 0, -10000⟩
    let lodT := initLODDistances 256 2
    let t1 := (update (0, 0, 0) planes1 lodT 2 (initTree 512 256 2)).t
    let r2 := update (0, 0, 0) (List.replicate 6 pl2) lodT 2 t1
    entirelyNegative (r2.t.f) pl2 = true ∧
    (collectVisibleNodes r2.t).map (fun f => (f.X, f.Z)) =
      [(-128, 128), (128, 128), (-128, -128), (128, -128)] ∧
    (collectVisibleNodes r2.t).all (fun f => entirelyNegative f pl2) = true ∧
    r2.cnt = 0 := by
  norm_num [initTree, buildTree, update, updateNode, intersects, posVertexDist,
    calculateLOD, lodLoop, ltSqrt, shouldSubdivide, initLODDistances, buildFields,
    List.replicate, List.all_cons, collectVisibleNodes, entirelyNegative,
    boxCorners, planeDist, QNode.f]

/-- Four consecutive `range'` blocks concatenate to one block. -/
theorem range'_quad (s a b c d : ℕ) :
    List.range' s a ++ List.range' (s + a) b ++ List.range' (s + a + b) c ++
      List.range' (s + a + b + c) d = List.range' s (a + b + c + d) := by
  rw [List.range'_append_1]
  rw [show s + a + b = s + (b + a) by omega, List.range'_append_1]
  rw [show s + (b + a) + c = s + (c + (b + a)) by omega, List.range'_append_1]
  congr 1
  omega

/-- `UpdateNode` hands out `ObjectCBIndex` values consecutively: starting
    the traversal of a subtree with counters `(cb, cnt)`, the draw targets
    receive `cb, cb+1, ...` in evaluation order and both counters advance by
    the number of targets. -/
theorem updateNode_counters (cam : ℚ × ℚ × ℚ) (planes : List Plane)
    (lodT : List ℚ) (maxL : ℤ) :
    ∀ (t : QNode) (cb cnt : ℕ),
    (updateNode cam planes lodT maxL t cb cnt).cb =
      cb + (updateNode cam planes lodT maxL t cb cnt).targets.length ∧
    (updateNode cam planes lodT maxL t cb cnt).cnt =
      cnt + (updateNode cam planes lodT maxL t cb cnt).targets.length ∧
    (updateNode cam planes lodT maxL t cb cnt).targets.map NodeFields.ObjectCBIndex =
      List.range' cb (updateNode cam planes lodT maxL t cb cnt).targets.length := by
  intro t
  induction t with
  | leaf f =>
    intro cb cnt
    simp only [updateNode]
    split_ifs <;> simp [List.range']
  | node f c0 c1 c2 c3 ih0 ih1 ih2 ih3 =>
    intro cb cnt
    simp only [updateNode]
    split_ifs with h1 h2
    · dsimp only
      set r0 := updateNode cam planes lodT maxL c0 cb cnt with hr0
      set r1 := updateNode cam planes lodT maxL c1 r0.cb r0.cnt with hr1
      set r2 := updateNode cam planes lodT maxL c2 r1.cb r1.cnt with hr2
      set r3 := updateNode cam planes lodT maxL c3 r2.cb r2.cnt with hr3
      obtain ⟨h0a, h0b, h0c⟩ := ih0 cb cnt
      obtain ⟨h1a, h1b, h1c⟩ := ih1 r0.cb r0.cnt
      obtain ⟨h2a, h2b, h2c⟩ := ih2 r1.cb r1.cnt
      obtain ⟨h3a, h3b, h3c⟩ := ih3 r2.cb r2.cnt
      rw [← hr0] at h0a h0b h0c
      rw [← hr1] at h1a h1b h1c
      rw [← hr2] at h2a h2b h2c
      rw [← hr3] at h3a h3b h3c
      refine ⟨?_, ?_, ?_⟩
      · simp only [List.length_append]
        omega
      · simp only [List.length_append]
        omega
      · rw [List.map_append, List.map_append, List.map_append, h0c, h1c, h2c, h3c,
          h2a, h1a, h0a, range'_quad]
        have hlen : (r0.targets ++ r1.targets ++ r2.targets ++ r3.targets).length =
            r0.targets.length + r1.targets.length + r2.targets.length +
              r3.targets.length := by
          simp only [List.length_append]
        rw [hlen]
    · simp [List.range']
    · simp [List.range']

/-- Frustum test reads only fields `Update` never writes: replacing the
    per-frame fields (`LODLevel`, `IsVisible`, `ObjectCBIndex`) leaves it
    unchanged. -/
theorem intersects_fields (f : NodeFields) (l : ℤ) (v : Bool) (o : ℕ)
    (planes : List Plane) :
    intersects (NodeFields.mk f.X f.Z f.Size l f.MaxLOD f.CenterX f.CenterY
      f.CenterZ f.ExtentX f.ExtentY f.ExtentZ f.MinY f.MaxY f.IsLeaf v o) planes =
    intersects f planes := rfl

/-- LOD selection reads only fields `Update` never writes. -/
theorem calculateLOD_fields (f : NodeFields) (l : ℤ) (v : Bool) (o : ℕ)
    (lodT : List ℚ) (maxL : ℤ) (cam : ℚ × ℚ × ℚ) :
    calculateLOD lodT maxL (NodeFields.mk f.X f.Z f.Size l f.MaxLOD f.CenterX
      f.CenterY f.CenterZ f.ExtentX f.ExtentY f.ExtentZ f.MinY f.MaxY
      f.IsLeaf v o) cam =
    calculateLOD lodT maxL f cam := rfl

/-- The subdivision test reads only fields `Update` never writes. -/
theorem shouldSubdivide_fields (f : NodeFields) (l : ℤ) (v : Bool) (o : ℕ)
    (cam : ℚ × ℚ × ℚ) :
    shouldSubdivide (NodeFields.mk f.X f.Z f.Size l f.MaxLOD f.CenterX
      f.CenterY f.CenterZ f.ExtentX f.ExtentY f.ExtentZ f.MinY f.MaxY
      f.IsLeaf v o) cam =
    shouldSubdivide f cam := rfl

/-- Re-running `UpdateNode` on an already-updated subtree with the same
    camera, frustum and counters reproduces the same result: every branch
    decision depends only on fields `UpdateNode` never writes. -/
theorem updateNode_idem (cam : ℚ × ℚ × ℚ) (planes : List Plane)
    (lodT : List ℚ) (maxL : ℤ) :
    ∀ (t : QNode) (cb cnt : ℕ),
    updateNode cam planes lodT maxL (updateNode cam planes lodT maxL t cb cnt).t cb cnt =
      updateNode cam planes lodT maxL t cb cnt := by
  intro t
  induction t with
  | leaf f =>
    intro cb cnt
    by_cases hI : intersects f planes = true
    · by_cases hS : (!f.IsLeaf && shouldSubdivide f cam) = true
      · simp only [updateNode, intersects_fields, calculateLOD_fields,
          shouldSubdivide_fields, hI, hS, if_true]
      · simp only [updateNode, intersects_fields, calculateLOD_fields,
          shouldSubdivide_fields, hI, hS, if_true, if_false, Bool.false_eq_true]
    · simp only [updateNode, intersects_fields, hI, if_false, Bool.false_eq_true]
  | node f c0 c1 c2 c3 ih0 ih1 ih2 ih3 =>
    intro cb cnt
    by_cases hI : intersects f planes = true
    · by_cases hS : (!f.IsLeaf && shouldSubdivide f cam) = true
      · simp only [updateNode, intersects_fields, calculateLOD_fields,
          shouldSubdivide_fields, hI, hS, if_true, ih0, ih1, ih2, ih3]
      · simp only [updateNode, intersects_fields, calculateLOD_fields,
          shouldSubdivide_fields, hI, hS, if_true, if_false, Bool.false_eq_true]
    · simp only [updateNode, intersects_fields, hI, if_false, Bool.false_eq_true]

/-- **C10** `Update` is idempotent on the tree state: for every tree state and
every fixed camera position and frustum planes, calling `Update` twice in a
row with the same arguments leaves exactly the same per-node state
(`IsVisible`, `LODLevel`, `ObjectCBIndex`), the same counters
(`GetVisibleNodeCount` and the object-CB counter), the same draw-target
sequence, and the same `GetVisibleNodes` output as calling it once. -/
theorem c10_update_idempotent (cam : ℚ × ℚ × ℚ) (planes : List Plane)
    (lodT : List ℚ) (maxL : ℤ) (t : QNode) :
    update cam planes lodT maxL ((update cam planes lodT maxL t).t) =
      update cam planes lodT maxL t ∧
    collectVisibleNodes ((update cam planes lodT maxL
        ((update cam planes lodT maxL t).t)).t) =
      collectVisibleNodes ((update cam planes lodT maxL t).t) := by
  have h := updateNode_idem cam planes lodT maxL t 0 0
  exact ⟨h, by simp only [update]; rw [h]⟩

/-- **C8** During each call to `Update`, the nodes selected as draw targets
receive `ObjectCBIndex` values `0, 1, 2, ...` in depth-first evaluation order
with child order 0,1,2,3 (the order in which `updateNode` records them in
`targets`): the counter is reset to 0 at the start of every `Update`, each
draw target gets the next sequential value, and the final counter value
equals `GetVisibleNodeCount`. -/
theorem c8_sequential_cb_indices (cam : ℚ × ℚ × ℚ) (planes : List Plane)
    (lodT : List ℚ) (maxL : ℤ) (t : QNode) :
    (update cam planes lodT maxL t).targets.map NodeFields.ObjectCBIndex =
      List.range (update cam planes lodT maxL t).targets.length ∧
    (update cam planes lodT maxL t).cb = (update cam planes lodT maxL t).cnt ∧
    (update cam planes lodT maxL t).cb = (update cam planes lodT maxL t).targets.length := by
  obtain ⟨ha, hb, hc⟩ := updateNode_counters cam planes lodT maxL t 0 0
  refine ⟨?_, ?_, ?_⟩
  · rw [List.range_eq_range']
    simpa using hc
  · simp only [update] at *
    omega
  · simp only [update] at *
    omega

end TerrainLOD

namespace Terrain

/-- Edge-clamping puts both coordinates inside `[0, w-1] × [0, h-1]` and the
    row-major index inside the grid. -/
theorem clampPair_bounds (w h : ℕ) (x z : ℤ) (hw : 1 ≤ w) (hh : 1 ≤ h) :
    0 ≤ (clampPair w h x z).1 ∧ (clampPair w h x z).1 ≤ (w : ℤ) - 1 ∧
    0 ≤ (clampPair w h x z).2 ∧ (clampPair w h x z).2 ≤ (h : ℤ) - 1 ∧
    (clampPair w h x z).2.toNat * w + (clampPair w h x z).1.toNat < w * h := by
  obtain ⟨w', rfl⟩ : ∃ w', w = w' + 1 := ⟨w - 1, by omega⟩
  obtain ⟨h', rfl⟩ : ∃ h', h = h' + 1 := ⟨h - 1, by omega⟩
  simp only [clampPair]
  have hx1 : 0 ≤ max 0 (min x ((w' + 1 : ℕ) - 1 : ℤ)) := le_max_left 0 _
  have hz1 : 0 ≤ max 0 (min z ((h' + 1 : ℕ) - 1 : ℤ)) := le_max_left 0 _
  have hx2 : max 0 (min x ((w' + 1 : ℕ) - 1 : ℤ)) ≤ ((w' + 1 : ℕ) : ℤ) - 1 :=
    max_le (by push_cast; omega) (min_le_right _ _)
  have hz2 : max 0 (min z ((h' + 1 : ℕ) - 1 : ℤ)) ≤ ((h' + 1 : ℕ) : ℤ) - 1 :=
    max_le (by push_cast; omega) (min_le_right _ _)
  refine ⟨hx1, hx2, hz1, hz2, ?_⟩
  have hxN : (max 0 (min x ((w' + 1 : ℕ) - 1 : ℤ))).toNat ≤ w' := by omega
  have hzN : (max 0 (min z ((h' + 1 : ℕ) - 1 : ℤ))).toNat ≤ h' := by omega
  have hmul : (max 0 (min z ((h' + 1 : ℕ) - 1 : ℤ))).toNat * (w' + 1) ≤ h' * (w' + 1) :=
    Nat.mul_le_mul_right _ hzN
  have heq : (w' + 1) * (h' + 1) = h' * (w' + 1) + w' + 1 := by ring
  linarith [hmul, hxN, heq]

/-- **C6** For every world-coordinate pair `(x, z)`, including coordinates far
outside the terrain footprint, the `Height` and `Normal` queries only read
grid entries at indices within `[0, width-1] × [0, height-1]` (edge-clamp
addressing); and if the grid is empty, `Height` returns 0. -/
theorem c6_height_normal_reads_in_bounds (w h : ℕ) (ts x z : ℚ)
    (hw : 1 ≤ w) (hh : 1 ≤ h) :
    (∀ p ∈ getHeightReads w h ts x z,
        0 ≤ p.1 ∧ p.1 ≤ (w : ℤ) - 1 ∧ 0 ≤ p.2 ∧ p.2 ≤ (h : ℤ) - 1 ∧
        p.2.toNat * w + p.1.toNat < w * h) ∧
    (∀ p ∈ getNormalReads w h ts x z,
        0 ≤ p.1 ∧ p.1 ≤ (w : ℤ) - 1 ∧ 0 ≤ p.2 ∧ p.2 ≤ (h : ℤ) - 1 ∧
        p.2.toNat * w + p.1.toNat < w * h) ∧
    (∀ (grid : List ℚ) (minH maxH : ℚ), grid = [] →
        getHeight grid w h ts minH maxH x z = 0) := by
  have core : ∀ (a b : ℚ) (p : ℤ × ℤ), p ∈ getHeightReads w h ts a b →
      0 ≤ p.1 ∧ p.1 ≤ (w : ℤ) - 1 ∧ 0 ≤ p.2 ∧ p.2 ≤ (h : ℤ) - 1 ∧
      p.2.toNat * w + p.1.toNat < w * h := by
    intro a b p hp
    simp only [getHeightReads, List.mem_cons, List.mem_singleton,
      List.not_mem_nil, or_false] at hp
    rcases hp with rfl | rfl | rfl | rfl <;> exact clampPair_bounds w h _ _ hw hh
  refine ⟨core x z, ?_, ?_⟩
  · intro p hp
    simp only [getNormalReads, List.mem_append] at hp
    rcases hp with ((hp | hp) | hp) | hp <;> exact core _ _ p hp
  · intro grid minH maxH hgrid
    simp [getHeight, hgrid]

/-- Witness for `c6_height_normal_reads_in_bounds` at `w = h = 4`,
`ts = 32`, the far-out-of-range query point `(320, -7)` (ten times the
terrain size). -/
theorem c6_height_normal_reads_in_bounds_witness :
    (1 ≤ 4 ∧ 1 ≤ 4) ∧
    (∀ p ∈ getHeightReads 4 4 32 320 (-7),
        0 ≤ p.1 ∧ p.1 ≤ (4 : ℤ) - 1 ∧ 0 ≤ p.2 ∧ p.2 ≤ (4 : ℤ) - 1 ∧
        p.2.toNat * 4 + p.1.toNat < 4 * 4) ∧
    (∀ (grid : List ℚ) (minH maxH : ℚ), grid = [] →
        getHeight grid 4 4 32 minH maxH 320 (-7) = 0) :=
  ⟨⟨by norm_num, by norm_num⟩,
   (c6_height_normal_reads_in_bounds 4 4 32 320 (-7) (by norm_num) (by norm_num)).1,
   (c6_height_normal_reads_in_bounds 4 4 32 320 (-7) (by norm_num) (by norm_num)).2.2⟩

/-- **C7** For every non-empty grid and every world coordinate `(x, z)` that
maps exactly onto an integer texel coordinate `(u, v)` of the grid under
`u = (x/terrainSize + 0.5)*width`, `v = (z/terrainSize + 0.5)*height`,
`GetHeight(x, z)` returns `minHeight + s*(maxHeight - minHeight)` where `s`
is the stored normalized sample at that texel (exact over ℚ, hence within
floating-point epsilon). -/
theorem c7_grid_aligned_exact (grid : List ℚ) (w h : ℕ) (ts minH maxH x z : ℚ)
    (u0 v0 : ℤ) (hgrid : grid ≠ []) (hu0 : 0 ≤ u0) (hu1 : u0 < (w : ℤ))
    (hv0 : 0 ≤ v0) (hv1 : v0 < (h : ℤ))
    (hu : (x / ts + 1 / 2) * (w : ℚ) = (u0 : ℚ))
    (hv : (z / ts + 1 / 2) * (h : ℚ) = (v0 : ℚ)) :
    getHeight grid w h ts minH maxH x z =
      minH + grid.getD (v0.toNat * w + u0.toNat) 0 * (maxH - minH) := by
  simp only [getHeight, if_neg hgrid, hu, hv, Int.floor_intCast, sub_self,
    mul_zero, add_zero]
  have hs : sampleHeight grid w h u0 v0 = grid.getD (v0.toNat * w + u0.toNat) 0 := by
    simp only [sampleHeight, clampPair]
    rw [min_eq_left (by omega), max_eq_right (by omega),
        min_eq_left (by omega), max_eq_right (by omega)]
  rw [hs]

/-- Witness for `c7_grid_aligned_exact`: a 2×2 grid with samples
`[1/2, 1/4, 3/4, 1]`, `terrainSize = 2`, height range `[10, 30]`, queried at
the world point `(0, -1)`, which maps to texel `(1, 0)` holding `1/4`:
`GetHeight = 10 + (1/4)*20 = 15`. -/
theorem c7_grid_aligned_exact_witness :
    ([(1 : ℚ)/2, 1/4, 3/4, 1] ≠ ([] : List ℚ)) ∧
    ((0 : ℚ) / 2 + 1 / 2) * ((2 : ℕ) : ℚ) = ((1 : ℤ) : ℚ) ∧
    getHeight [(1 : ℚ)/2, 1/4, 3/4, 1] 2 2 2 10 30 0 (-1) = 15 := by
  refine ⟨by simp, by norm_num, ?_⟩
  have := c7_grid_aligned_exact [(1 : ℚ)/2, 1/4, 3/4, 1] 2 2 2 10 30 0 (-1) 1 0
    (by simp) (by norm_num) (by norm_num) (by norm_num) (by norm_num)
    (by norm_num) (by norm_num)
  rw [this]
  norm_num

/-- `List.getD` with the default value sees through right-padding with that
    default. -/
theorem getD_append_replicate (l : List ℕ) (k j : ℕ) :
    (l ++ List.replicate k 0).getD j 0 = l.getD j 0 := by
  rcases lt_or_le j l.length with hj | hj
  · rw [List.getD_append _ _ _ _ hj]
  · rw [List.getD_eq_default _ _ hj]
    rcases lt_or_le j (l.length + k) with hj2 | hj2
    · rw [List.getD_eq_getElem _ _ (by simp; omega)]
      simp [List.getElem_append_right hj]
    · rw [List.getD_eq_default _ _ (by simp; omega)]

/-- **C2 counterexample** The claim says a 2-byte-per-sample load from a
buffer of length `width*height*2 - 1` fails (reports failure).  At
`width = height = 1` with the 1-byte file `[200]` (length `1*1*2 - 1`),
`Terrain::LoadHeightmap` returns `true`: the load does not fail. -/
theorem c2_short_buffer_load_returns_true :
    (loadHeightmap [200] 1 1 true).1 = true := rfl

/-- **C2 (amended)** For every `width ≥ 1`, `height ≥ 1` and every 2-byte
input buffer one byte short of `width*height*2`, the load reports success
(returns `true`, it does not fail), and it never reads past the end of the
buffer: the grid has `width*height` samples, each decoded from the buffer
bytes at in-range positions `2i` and `2i+1` with every absent byte read as
zero — in particular the final sample's missing high byte is zero, leaving
only its low byte. -/
theorem c2_short_buffer_zero_fill (w h : ℕ) (file : List ℕ)
    (hwh : 1 ≤ w * h) (hlen : file.length = w * h * 2 - 1) :
    (loadHeightmap file w h true).1 = true ∧
    (loadHeightmap file w h true).2.length = w * h ∧
    (∀ i, i < w * h →
      (loadHeightmap file w h true).2.getD i 0 =
        ((file.getD (2 * i) 0 + 256 * file.getD (2 * i + 1) 0 : ℕ) : ℚ) / 65535) ∧
    (loadHeightmap file w h true).2.getD (w * h - 1) 0 =
      ((file.getD (w * h * 2 - 2) 0 : ℕ) : ℚ) / 65535 := by
  have hbuf : ∀ j, (streamRead file (w * h * 2)).getD j 0 = file.getD j 0 := by
    intro j
    have htake : file.take (w * h * 2) = file := List.take_of_length_le (by omega)
    simp only [streamRead, htake]
    exact getD_append_replicate file _ j
  have hsnd : (loadHeightmap file w h true).2 =
      (List.range (w * h)).map (fun i =>
        (((streamRead file (w * h * 2)).getD (2 * i) 0 +
          256 * (streamRead file (w * h * 2)).getD (2 * i + 1) 0 : ℕ) : ℚ) / 65535) := rfl
  have hsample : ∀ i, i < w * h →
      (loadHeightmap file w h true).2.getD i 0 =
        ((file.getD (2 * i) 0 + 256 * file.getD (2 * i + 1) 0 : ℕ) : ℚ) / 65535 := by
    intro i hi
    rw [hsnd, List.getD_eq_getElem _ _ (by simpa using hi)]
    simp only [List.getElem_map, List.getElem_range]
    rw [hbuf, hbuf]
  refine ⟨rfl, by rw [hsnd]; simp, hsample, ?_⟩
  have hlast := hsample (w * h - 1) (by omega)
  have hzero : file.getD (2 * (w * h - 1) + 1) 0 = 0 :=
    List.getD_eq_default _ _ (by omega)
  have hidx : 2 * (w * h - 1) = w * h * 2 - 2 := by omega
  rw [hlast, hzero, hidx]
  norm_num

/-- `Grad` is bounded by the 1-norm of its offsets, whatever the hash. -/
theorem gradQ_abs (hash : ℕ) (a b : ℚ) : |gradQ hash a b| ≤ |a| + |b| := by
  simp only [gradQ]
  split_ifs <;> refine le_trans (abs_add _ _) ?_ <;>
    (try simp only [abs_neg]) <;> linarith [abs_nonneg a, abs_nonneg b]

/-- The quintic fade maps `[0,1]` into `[0,1]`. -/
theorem fadeQ_bounds (t : ℚ) (h0 : 0 ≤ t) (h1 : t ≤ 1) :
    0 ≤ fadeQ t ∧ fadeQ t ≤ 1 := by
  constructor
  · have e : fadeQ t = t ^ 3 * (6 * t ^ 2 - 15 * t + 10) := by unfold fadeQ; ring
    have h2 : 0 ≤ 6 * t ^ 2 - 15 * t + 10 := by nlinarith [sq_nonneg (t - 5 / 4)]
    rw [e]
    exact mul_nonneg (pow_nonneg h0 3) h2
  · have e : 1 - fadeQ t = (1 - t) ^ 3 * (6 * t ^ 2 + 3 * t + 1) := by
      unfold fadeQ; ring
    have h2 : 0 ≤ 6 * t ^ 2 + 3 * t + 1 := by nlinarith [sq_nonneg t]
    nlinarith [mul_nonneg (pow_nonneg (by linarith : (0 : ℚ) ≤ 1 - t) 3) h2]

/-- Key estimate for the Perlin range bound:
    `t + fade(t)*(1 - 2t) ≤ 1/2` on `[0,1]`. -/
theorem fade_balance (t : ℚ) (h0 : 0 ≤ t) (h1 : t ≤ 1) :
    t + fadeQ t * (1 - 2 * t) ≤ 1 / 2 := by
  have key : 1 / 2 - (t + fadeQ t * (1 - 2 * t)) =
      2 * (t - 1 / 2) ^ 2 * (6 * (t * (t - 1)) ^ 2 + 2 * t * (1 - t) + 1) := by
    unfold fadeQ; ring
  have hb : 0 ≤ 6 * (t * (t - 1)) ^ 2 + 2 * t * (1 - t) + 1 := by
    nlinarith [sq_nonneg (t * (t - 1)), mul_nonneg h0 (by linarith : (0 : ℚ) ≤ 1 - t)]
  have hsq : 0 ≤ 2 * (t - 1 / 2) ^ 2 := by positivity
  nlinarith [mul_nonneg hsq hb]

/-- Linear interpolation with weight in `[0,1]` is bounded by the convex
    combination of the endpoint magnitudes. -/
theorem lerpQ_abs (a b t : ℚ) (h0 : 0 ≤ t) (h1 : t ≤ 1) :
    |lerpQ a b t| ≤ (1 - t) * |a| + t * |b| := by
  have e : lerpQ a b t = (1 - t) * a + t * b := by unfold lerpQ; ring
  rw [e]
  refine le_trans (abs_add _ _) ?_
  rw [abs_mul, abs_mul, abs_of_nonneg (by linarith : (0 : ℚ) ≤ 1 - t),
    abs_of_nonneg h0]

/-- The Perlin blend of four corner gradients, each bounded by its 1-norm
    distance to the opposite cell corner, stays within `[-1, 1]`. -/
theorem noise_blend_abs (xf zf : ℚ) (hx0 : 0 ≤ xf) (hx1 : xf < 1)
    (hz0 : 0 ≤ zf) (hz1 : zf < 1) (g00 g10 g01 g11 : ℚ)
    (h00 : |g00| ≤ xf + zf) (h10 : |g10| ≤ (1 - xf) + zf)
    (h01 : |g01| ≤ xf + (1 - zf)) (h11 : |g11| ≤ (1 - xf) + (1 - zf)) :
    |lerpQ (lerpQ g00 g10 (fadeQ xf)) (lerpQ g01 g11 (fadeQ xf)) (fadeQ zf)| ≤ 1 := by
  have hu := fadeQ_bounds xf hx0 (le_of_lt hx1)
  have hv := fadeQ_bounds zf hz0 (le_of_lt hz1)
  have hphix := fade_balance xf hx0 (le_of_lt hx1)
  have hphiz := fade_balance zf hz0 (le_of_lt hz1)
  have hix0 : |lerpQ g00 g10 (fadeQ xf)| ≤ zf + 1 / 2 := by
    refine le_trans (lerpQ_abs _ _ _ hu.1 hu.2) ?_
    have s1 : (1 - fadeQ xf) * |g00| ≤ (1 - fadeQ xf) * (xf + zf) :=
      mul_le_mul_of_nonneg_left h00 (by linarith)
    have s2 : fadeQ xf * |g10| ≤ fadeQ xf * ((1 - xf) + zf) :=
      mul_le_mul_of_nonneg_left h10 hu.1
    nlinarith [s1, s2]
  have hix1 : |lerpQ g01 g11 (fadeQ xf)| ≤ (1 - zf) + 1 / 2 := by
    refine le_trans (lerpQ_abs _ _ _ hu.1 hu.2) ?_
    have s1 : (1 - fadeQ xf) * |g01| ≤ (1 - fadeQ xf) * (xf + (1 - zf)) :=
      mul_le_mul_of_nonneg_left h01 (by linarith)
    have s2 : fadeQ xf * |g11| ≤ fadeQ xf * ((1 - xf) + (1 - zf)) :=
      mul_le_mul_of_nonneg_left h11 hu.1
    nlinarith [s1, s2]
  refine le_trans (lerpQ_abs _ _ _ hv.1 hv.2) ?_
  have s3 : (1 - fadeQ zf) * |lerpQ g00 g10 (fadeQ xf)| ≤
      (1 - fadeQ zf) * (zf + 1 / 2) :=
    mul_le_mul_of_nonneg_left hix0 (by linarith)
  have s4 : fadeQ zf * |lerpQ g01 g11 (fadeQ xf)| ≤
      fadeQ zf * ((1 - zf) + 1 / 2) :=
    mul_le_mul_of_nonneg_left hix1 hv.1
  nlinarith [s3, s4]

/-- The Perlin noise of the source stays within `[-1, 1]` for every
    permutation table and every input. -/
theorem perlinNoise_abs (perm : ℕ → ℕ) (x z : ℚ) : |perlinNoise perm x z| ≤ 1 := by
  have hx0 : (0 : ℚ) ≤ x - (Int.floor x : ℚ) := sub_nonneg.mpr (Int.floor_le x)
  have hx1 : x - (Int.floor x : ℚ) < 1 := by linarith [Int.lt_floor_add_one x]
  have hz0 : (0 : ℚ) ≤ z - (Int.floor z : ℚ) := sub_nonneg.mpr (Int.floor_le z)
  have hz1 : z - (Int.floor z : ℚ) < 1 := by linarith [Int.lt_floor_add_one z]
  unfold perlinNoise
  refine noise_blend_abs _ _ hx0 hx1 hz0 hz1 _ _ _ _ ?_ ?_ ?_ ?_
  · refine le_trans (gradQ_abs _ _ _) ?_
    rw [abs_of_nonneg hx0, abs_of_nonneg hz0]
  · refine le_trans (gradQ_abs _ _ _) ?_
    rw [abs_of_nonpos (show x - (Int.floor x : ℚ) - 1 ≤ 0 by linarith),
        abs_of_nonneg hz0]
    linarith
  · refine le_trans (gradQ_abs _ _ _) ?_
    rw [abs_of_nonneg hx0,
        abs_of_nonpos (show z - (Int.floor z : ℚ) - 1 ≤ 0 by linarith)]
    linarith
  · refine le_trans (gradQ_abs _ _ _) ?_
    rw [abs_of_nonpos (show x - (Int.floor x : ℚ) - 1 ≤ 0 by linarith),
        abs_of_nonpos (show z - (Int.floor z : ℚ) - 1 ≤ 0 by linarith)]
    linarith

/-- Octave-loop invariant: the amplitude stays positive, the accumulated sum
    is bounded by the accumulated amplitude, and after at least one octave
    the accumulated amplitude is at least 1. -/
theorem octaveState_inv (perm : ℕ → ℕ) (nx nz frequency : ℚ) : ∀ o : ℕ,
    0 < (octaveState perm nx nz frequency o).2.1 ∧
    |(octaveState perm nx nz frequency o).1| ≤ (octaveState perm nx nz frequency o).2.2.2 ∧
    (1 ≤ o → 1 ≤ (octaveState perm nx nz frequency o).2.2.2) := by
  intro o
  induction o with
  | zero => simp [octaveState]
  | succ o ih =>
    obtain ⟨hamp, hsum, hone⟩ := ih
    have hnoise := perlinNoise_abs perm
      (nx * (octaveState perm nx nz frequency o).2.2.1)
      (nz * (octaveState perm nx nz frequency o).2.2.1)
    refine ⟨?_, ?_, ?_⟩
    · simpa [octaveState] using half_pos hamp
    · simp only [octaveState]
      refine le_trans (abs_add _ _) ?_
      rw [abs_mul]
      have : |perlinNoise perm (nx * (octaveState perm nx nz frequency o).2.2.1)
          (nz * (octaveState perm nx nz frequency o).2.2.1)| *
          |(octaveState perm nx nz frequency o).2.1| ≤
          1 * (octaveState perm nx nz frequency o).2.1 := by
        rw [abs_of_pos hamp]
        exact mul_le_mul_of_nonneg_right hnoise (le_of_lt hamp)
      linarith
    · intro _
      rcases Nat.eq_zero_or_pos o with rfl | hpos
      · simp [octaveState]
      · have h1 := hone hpos
        simp only [octaveState]
        linarith

/-- Every remapped cell value lies in `[0, 1]` when at least one octave is
    summed. -/
theorem cellValue_bounds (perm : ℕ → ℕ) (w h : ℕ) (frequency : ℚ)
    (octaves : ℕ) (hoct : 1 ≤ octaves) (x z : ℕ) :
    0 ≤ cellValue perm w h frequency octaves x z ∧
    cellValue perm w h frequency octaves x z ≤ 1 := by
  obtain ⟨hamp, hsum, hone⟩ :=
    octaveState_inv perm ((x : ℚ) / (w : ℚ)) ((z : ℚ) / (h : ℚ)) frequency octaves
  have has := hone hoct
  set S := octaveState perm ((x : ℚ) / (w : ℚ)) ((z : ℚ) / (h : ℚ)) frequency octaves
    with hS
  have hq : |S.1 / S.2.2.2| ≤ 1 := by
    rw [abs_div, abs_of_pos (show (0 : ℚ) < S.2.2.2 by linarith),
      div_le_one (by linarith)]
    exact hsum
  rw [abs_le] at hq
  unfold cellValue
  rw [← hS]
  constructor <;> [linarith [hq.1]; linarith [hq.2]]

/-- A running `min` fold never exceeds its seed. -/
theorem foldl_min_le_init : ∀ (g : List ℚ) (c : ℚ), g.foldl min c ≤ c := by
  intro g
  induction g with
  | nil => intro c; exact le_refl c
  | cons a g ih => intro c; exact le_trans (ih (min c a)) (min_le_left c a)

/-- A running `min` fold is a lower bound of the list. -/
theorem foldl_min_le_mem : ∀ (g : List ℚ) (c v : ℚ), v ∈ g → g.foldl min c ≤ v := by
  intro g
  induction g with
  | nil => intro c v hv; exact absurd hv (List.not_mem_nil v)
  | cons a g ih =>
    intro c v hv
    rcases List.mem_cons.mp hv with rfl | hv
    · exact le_trans (foldl_min_le_init g (min c v)) (min_le_right c v)
    · exact ih (min c a) v hv

/-- A running `min` fold returns its seed or an element of the list. -/
theorem foldl_min_mem : ∀ (g : List ℚ) (c : ℚ),
    g.foldl min c = c ∨ g.foldl min c ∈ g := by
  intro g
  induction g with
  | nil => intro c; exact Or.inl rfl
  | cons a g ih =>
    intro c
    rcases ih (min c a) with h | h
    · rcases min_choice c a with hc | hc
      · exact Or.inl (by rw [List.foldl_cons, h, hc])
      · exact Or.inr (by rw [List.foldl_cons, h, hc]; exact List.mem_cons_self a g)
    · exact Or.inr (List.mem_cons_of_mem a h)

/-- A running `max` fold never drops below its seed. -/
theorem foldl_max_ge_init : ∀ (g : List ℚ) (c : ℚ), c ≤ g.foldl max c := by
  intro g
  induction g with
  | nil => intro c; exact le_refl c
  | cons a g ih => intro c; exact le_trans (le_max_left c a) (ih (max c a))

/-- A running `max` fold is an upper bound of the list. -/
theorem foldl_max_ge_mem : ∀ (g : List ℚ) (c v : ℚ), v ∈ g → v ≤ g.foldl max c := by
  intro g
  induction g with
  | nil => intro c v hv; exact absurd hv (List.not_mem_nil v)
  | cons a g ih =>
    intro c v hv
    rcases List.mem_cons.mp hv with rfl | hv
    · exact le_trans (le_max_right c v) (foldl_max_ge_init g (max c v))
    · exact ih (max c a) v hv

/-- A running `max` fold returns its seed or an element of the list. -/
theorem foldl_max_mem : ∀ (g : List ℚ) (c : ℚ),
    g.foldl max c = c ∨ g.foldl max c ∈ g := by
  intro g
  induction g with
  | nil => intro c; exact Or.inl rfl
  | cons a g ih =>
    intro c
    rcases ih (max c a) with h | h
    · rcases max_choice c a with hc | hc
      · exact Or.inl (by rw [List.foldl_cons, h, hc])
      · exact Or.inr (by rw [List.foldl_cons, h, hc]; exact List.mem_cons_self a g)
    · exact Or.inr (List.mem_cons_of_mem a h)

/-- Every cell of the generated grid lies in `[0, 1]`. -/
theorem genGrid_mem_bounds (perm : ℕ → ℕ) (w h : ℕ) (frequency : ℚ)
    (octaves : ℕ) (hoct : 1 ≤ octaves) :
    ∀ v ∈ genGrid perm w h frequency octaves, 0 ≤ v ∧ v ≤ 1 := by
  intro v hv
  simp only [genGrid, List.mem_flatMap, List.mem_map, List.mem_range] at hv
  obtain ⟨z, -, x, -, rfl⟩ := hv
  exact cellValue_bounds perm w h frequency octaves hoct x z

/-- The generated grid is nonempty for positive dimensions. -/
theorem genGrid_ne_nil (perm : ℕ → ℕ) (w h : ℕ) (frequency : ℚ) (octaves : ℕ)
    (hw : 1 ≤ w) (hh : 1 ≤ h) : genGrid perm w h frequency octaves ≠ [] := by
  refine List.ne_nil_of_mem (a := cellValue perm w h frequency octaves 0 0) ?_
  simp only [genGrid, List.mem_flatMap, List.mem_map, List.mem_range]
  exact ⟨0, by omega, 0, by omega, rfl⟩

/-- Rescaling a nonempty `[0,1]`-valued list by its tracked minimum and
    maximum (seeds 1 and 0, as the source uses) realizes 0 and 1 exactly and
    stays within `[0, 1]`, whenever the tracked range is positive. -/
theorem rescale_bounds (g : List ℚ) (hne : g ≠ [])
    (hb : ∀ v ∈ g, 0 ≤ v ∧ v ≤ 1)
    (hlt : 1 / 1000 < g.foldl max 0 - g.foldl min 1) :
    (∃ a ∈ g.map (fun v => (v - g.foldl min 1) / (g.foldl max 0 - g.foldl min 1)),
      a = 0) ∧
    (∃ b ∈ g.map (fun v => (v - g.foldl min 1) / (g.foldl max 0 - g.foldl min 1)),
      b = 1) ∧
    (∀ v ∈ g.map (fun v => (v - g.foldl min 1) / (g.foldl max 0 - g.foldl min 1)),
      0 ≤ v ∧ v ≤ 1) := by
  obtain ⟨v0, hv0⟩ := List.exists_mem_of_ne_nil g hne
  have hrange : (0 : ℚ) < g.foldl max 0 - g.foldl min 1 := by linarith
  have hlo_mem : g.foldl min 1 ∈ g := by
    rcases foldl_min_mem g 1 with h1 | h1
    · have h2 := foldl_min_le_mem g 1 v0 hv0
      have h3 := (hb v0 hv0).2
      have h4 : v0 = g.foldl min 1 := le_antisymm (by rw [h1]; exact h3) h2
      rw [← h4]
      exact hv0
    · exact h1
  have hhi_mem : g.foldl max 0 ∈ g := by
    rcases foldl_max_mem g 0 with h1 | h1
    · have h2 := foldl_max_ge_mem g 0 v0 hv0
      have h3 := (hb v0 hv0).1
      have h4 : v0 = g.foldl max 0 := le_antisymm h2 (by rw [h1]; exact h3)
      rw [← h4]
      exact hv0
    · exact h1
  refine ⟨⟨_, List.mem_map_of_mem _ hlo_mem, by simp⟩,
          ⟨_, List.mem_map_of_mem _ hhi_mem, div_self (ne_of_gt hrange)⟩, ?_⟩
  intro v hv
  simp only [List.mem_map] at hv
  obtain ⟨u, hu, rfl⟩ := hv
  constructor
  · exact div_nonneg (by linarith [foldl_min_le_mem g 1 u hu]) (le_of_lt hrange)
  · rw [div_le_one hrange]
    linarith [foldl_max_ge_mem g 0 u hu]

/-- **C4** For every `width ≥ 1`, `height ≥ 1`, every frequency, every
`octaves ≥ 1` and every permutation table, after
`GenerateProceduralHeightmap(width, height, frequency, octaves)` the minimum
of the stored grid is 0 and the maximum is 1 (exactly over ℚ, hence within
epsilon), unless the realized max-minus-min range before rescaling is
`≤ 0.001`, in which case the remapped values are stored unscaled. -/
theorem c4_procedural_heightmap_normalized (perm : ℕ → ℕ) (w h : ℕ)
    (frequency : ℚ) (octaves : ℕ) (hw : 1 ≤ w) (hh : 1 ≤ h)
    (hoct : 1 ≤ octaves) :
    (1 / 1000 < (genGrid perm w h frequency octaves).foldl max 0 -
        (genGrid perm w h frequency octaves).foldl min 1 →
      (∃ a ∈ generateProceduralHeightmap perm w h frequency octaves, a = 0) ∧
      (∃ b ∈ generateProceduralHeightmap perm w h frequency octaves, b = 1) ∧
      (∀ v ∈ generateProceduralHeightmap perm w h frequency octaves,
        0 ≤ v ∧ v ≤ 1)) ∧
    ((genGrid perm w h frequency octaves).foldl max 0 -
        (genGrid perm w h frequency octaves).foldl min 1 ≤ 1 / 1000 →
      generateProceduralHeightmap perm w h frequency octaves =
        genGrid perm w h frequency octaves) := by
  constructor
  · intro hlt
    have hres := rescale_bounds (genGrid perm w h frequency octaves)
      (genGrid_ne_nil perm w h frequency octaves hw hh)
      (genGrid_mem_bounds perm w h frequency octaves hoct) hlt
    simpa only [generateProceduralHeightmap, if_pos hlt] using hres
  · intro hle
    simp only [generateProceduralHeightmap, if_neg (not_lt.mpr hle)]

/-- Witness for `c4_procedural_heightmap_normalized` on a 2×1 grid with the
identity permutation table, frequency 1, one octave: the raw cells are
`[1/2, 3/4]`, the tracked range is `1/4 > 0.001`, and the rescaled stored
grid is exactly `[0, 1]`. -/
theorem c4_procedural_heightmap_normalized_witness :
    (1 ≤ 2 ∧ 1 ≤ 1 ∧ 1 ≤ 1) ∧
    generateProceduralHeightmap (fun n => n) 2 1 1 1 = [0, 1] ∧
    (∃ a ∈ generateProceduralHeightmap (fun n => n) 2 1 1 1, a = 0) ∧
    (∃ b ∈ generateProceduralHeightmap (fun n => n) 2 1 1 1, b = 1) ∧
    (∀ v ∈ generateProceduralHeightmap (fun n => n) 2 1 1 1, 0 ≤ v ∧ v ≤ 1) := by
  have hfr : Int.fract ((1 : ℚ) / 2) = 1 / 2 := by
    rw [Int.fract]
    rw [show ⌊(1 : ℚ) / 2⌋ = 0 from
      Int.floor_eq_zero_iff.mpr (by constructor <;> norm_num)]
    norm_num
  have hrange : 1 / 1000 < (genGrid (fun n => n) 2 1 1 1).foldl max 0 -
      (genGrid (fun n => n) 2 1 1 1).foldl min 1 := by
    norm_num [genGrid, cellValue, octaveState, perlinNoise, gradQ, lerpQ, fadeQ,
      List.range_succ, List.range_zero, hfr]
  have heval : generateProceduralHeightmap (fun n => n) 2 1 1 1 = [0, 1] := by
    norm_num [generateProceduralHeightmap, genGrid, cellValue, octaveState,
      perlinNoise, gradQ, lerpQ, fadeQ, List.range_succ, List.range_zero, hfr]
  exact ⟨⟨by norm_num, by norm_num, by norm_num⟩, heval,
    (c4_procedural_heightmap_normalized (fun n => n) 2 1 1 1
      (by norm_num) (by norm_num) (by norm_num)).1 hrange⟩

/-- Witness for `c2_short_buffer_zero_fill` at `w = h = 1`, file `[200]`:
the single sample decodes to `200/65535` (high byte zero-filled). -/
theorem c2_short_buffer_zero_fill_witness :
    1 ≤ 1 * 1 ∧ ([200] : List ℕ).length = 1 * 1 * 2 - 1 ∧
    (loadHeightmap [200] 1 1 true).1 = true ∧
    (loadHeightmap [200] 1 1 true).2.getD 0 0 = (200 : ℚ) / 65535 := by
  have hmain := c2_short_buffer_zero_fill 1 1 [200] (by norm_num) (by simp)
  refine ⟨by norm_num, by simp, hmain.1, ?_⟩
  have := hmain.2.2.1 0 (by norm_num)
  rw [this]
  norm_num

end Terrain
